import Mathlib

/-!
Verification of the goose-web AI-SDK provider bridge
(`src/goose-web-language-model.ts`) against its natural-language
specification.

The development shallowly embeds the code's pure logic:

* `extractJson` — the structured-output post-processor (the JS regex
  `\x7b[\s\S]*\x7d|\[[\s\S]*\]` together with a `JSON.parse` validity check);
* `convertPromptToText` — the prompt flattener;
* `onMessage` / `runStream` — the streaming `ws.onmessage` dispatch of
  `streamResponse`, i.e. the text-segment lifecycle tracker feeding the
  ordered message queue (including the `pendingTextStart` buffering of
  `enqueueStreamPart`);
* `onMessageGen` / `runGen` — the aggregated `generateResponse` path;
* `processLoop` — the JSON-mode filtering of
  `createStreamFromAsyncGenerator`.

`generateId` from `@ai-sdk/provider-utils` (an opaque fresh-identifier
supply in the source) is modelled as a deterministic counter threaded
through the state, as the design notes suggest for testability: text part
ids are the naturals `0, 1, 2, …` in order of generation, and
remote-supplied tool-call ids are kept verbatim via `CallId.remote`.
-/

/-! ### Characters used by the JSON extractor -/

def lbrace : Char := '\x7b'
def rbrace : Char := '\x7d'
def lbrack : Char := '['
def rbrack : Char := ']'

/-! ### JSON validity, modelling `JSON.parse` success/failure -/

def isJsonWs (c : Char) : Bool :=
  c = ' ' || c = '\t' || c = '\n' || c = '\r'

def skipWs : List Char → List Char
  | [] => []
  | c :: rest => if isJsonWs c then skipWs rest else c :: rest

def isHexDigit (c : Char) : Bool :=
  c.isDigit || ('a' ≤ c && c ≤ 'f') || ('A' ≤ c && c ≤ 'F')

/-- Consumes a JSON string body after the opening quote, per the JSON
grammar accepted by `JSON.parse`: raw characters except `"`, `\` and
controls below U+0020, and the escapes `\" \\ \/ \b \f \n \r \t \uXXXX`. -/
def parseStringBody : List Char → Option (List Char)
  | [] => none
  | c :: rest =>
    if c = '"' then some rest
    else if c = '\\' then
      match rest with
      | [] => none
      | e :: rest2 =>
        if e = '"' || e = '\\' || e = '/' || e = 'b' || e = 'f' || e = 'n'
            || e = 'r' || e = 't' then
          parseStringBody rest2
        else if e = 'u' then
          match rest2 with
          | h1 :: h2 :: h3 :: h4 :: rest3 =>
            if isHexDigit h1 && isHexDigit h2 && isHexDigit h3 && isHexDigit h4 then
              parseStringBody rest3
            else none
          | _ => none
        else none
    else if c.toNat < 32 then none
    else parseStringBody rest

/-- JSON integer part: `0` or a nonzero digit followed by digits. -/
def parseIntPart : List Char → Option (List Char)
  | [] => none
  | c :: rest =>
    if c = '0' then some rest
    else if c.isDigit then some (rest.dropWhile Char.isDigit)
    else none

/-- Optional JSON fraction part: `.` followed by at least one digit. -/
def parseFracPart (cs : List Char) : Option (List Char) :=
  match cs with
  | '.' :: rest =>
    match rest with
    | c :: _ => if c.isDigit then some (rest.dropWhile Char.isDigit) else none
    | [] => none
  | _ => some cs

/-- Optional JSON exponent part: `e`/`E`, optional sign, at least one digit. -/
def parseExpPart (cs : List Char) : Option (List Char) :=
  match cs with
  | [] => some []
  | e :: rest =>
    if e = 'e' || e = 'E' then
      let rest2 := match rest with
        | s :: r => if s = '+' || s = '-' then r else s :: r
        | [] => []
      match rest2 with
      | c :: _ => if c.isDigit then some (rest2.dropWhile Char.isDigit) else none
      | [] => none
    else some (e :: rest)

/-- JSON number: optional `-`, integer part, optional fraction, optional
exponent. -/
def parseNumber (cs : List Char) : Option (List Char) := do
  let cs := match cs with
    | '-' :: rest => rest
    | _ => cs
  let r1 ← parseIntPart cs
  let r2 ← parseFracPart r1
  parseExpPart r2

mutual

/-- JSON value, with fuel bounding the recursion depth. -/
def parseValue : Nat → List Char → Option (List Char)
  | 0, _ => none
  | Nat.succ f, cs =>
    match cs with
    | [] => none
    | c :: rest =>
      if c = '"' then parseStringBody rest
      else if c = lbrace then
        let cs2 := skipWs rest
        match cs2 with
        | d :: rest2 => if d = rbrace then some rest2 else parseMembers f cs2
        | [] => none
      else if c = lbrack then
        let cs2 := skipWs rest
        match cs2 with
        | d :: rest2 => if d = rbrack then some rest2 else parseElements f cs2
        | [] => none
      else if c = 't' then
        match rest with
        | 'r' :: 'u' :: 'e' :: r => some r
        | _ => none
      else if c = 'f' then
        match rest with
        | 'a' :: 'l' :: 's' :: 'e' :: r => some r
        | _ => none
      else if c = 'n' then
        match rest with
        | 'u' :: 'l' :: 'l' :: r => some r
        | _ => none
      else parseNumber cs

/-- Members of a JSON object (after `\x7b`, when not immediately closed). -/
def parseMembers : Nat → List Char → Option (List Char)
  | 0, _ => none
  | Nat.succ f, cs =>
    match skipWs cs with
    | c :: rest =>
      if c = '"' then
        match parseStringBody rest with
        | some r1 =>
          match skipWs r1 with
          | ':' :: r2 =>
            match parseValue f (skipWs r2) with
            | some r3 =>
              match skipWs r3 with
              | ',' :: r4 => parseMembers f r4
              | d :: r4 => if d = rbrace then some r4 else none
              | [] => none
            | none => none
          | _ => none
        | none => none
      else none
    | [] => none

/-- Elements of a JSON array (after `[`, when not immediately closed). -/
def parseElements : Nat → List Char → Option (List Char)
  | 0, _ => none
  | Nat.succ f, cs =>
    match parseValue f (skipWs cs) with
    | some r1 =>
      match skipWs r1 with
      | ',' :: r2 => parseElements f r2
      | d :: r2 => if d = rbrack then some r2 else none
      | [] => none
    | none => none

end

/-- `jsonValid cs` holds exactly when `JSON.parse` on `cs` succeeds:
leading/trailing whitespace around a single JSON value, nothing else. -/
def jsonValid (cs : List Char) : Bool :=
  match parseValue (cs.length + 1) (skipWs cs) with
  | some rest => (skipWs rest).isEmpty
  | none => false

/-! ### The structured-output post-processor `extractJson` -/

/-- Prefix of the list up to and including the last occurrence of `c`
(meaningful when `c` occurs), modelling the greedy `[\s\S]*` backtracking
to the last closing character. -/
def takeThroughLast (c : Char) : List Char → List Char
  | [] => []
  | x :: xs => if c ∈ xs then x :: takeThroughLast c xs else [x]

/-- First match of the JS regex `\x7b[\s\S]*\x7d|\[[\s\S]*\]` in the text:
the regex engine tries each start position left to right; a position
matches when it holds `\x7b` with some later `\x7d` (or `[` with some later
`]`), and the greedy `[\s\S]*` then extends the match to the last such
closing character in the whole remaining text. -/
def regexFirstMatch : List Char → Option (List Char)
  | [] => none
  | c :: rest =>
    if c = lbrace ∧ rbrace ∈ rest then some (c :: takeThroughLast rbrace rest)
    else if c = lbrack ∧ rbrack ∈ rest then some (c :: takeThroughLast rbrack rest)
    else regexFirstMatch rest

/-- `extractJson` from `goose-web-language-model.ts`: take the regex match
if any, return it when `JSON.parse` accepts it, otherwise return the
original text (the `catch` branch); with no match, return the original
text. -/
def extractJson (text : List Char) : List Char :=
  match regexFirstMatch text with
  | some m => if jsonValid m then m else text
  | none => text

def extractJsonStr (s : String) : String :=
  String.mk (extractJson s.toList)

/-- Depth-counting scan used by `firstBalancedSpan`; consumes characters
after an opener (initial depth 1) until the matching closer. -/
def balLoop (o cl : Char) : Nat → List Char → Option (List Char)
  | _, [] => none
  | depth, c :: rest =>
    if c = o then (balLoop o cl (depth + 1) rest).map (fun sp => c :: sp)
    else if c = cl then
      if depth = 1 then some [c]
      else (balLoop o cl (depth - 1) rest).map (fun sp => c :: sp)
    else (balLoop o cl depth rest).map (fun sp => c :: sp)

/-- Modelled from the claim's words, not from the source: the first
substring that is a balanced `\x7b...\x7d` or `[...]` span. Used only to
state the counterexample against claim C7. -/
def firstBalancedSpan : List Char → Option (List Char)
  | [] => none
  | c :: rest =>
    if c = lbrace then
      match balLoop lbrace rbrace 1 rest with
      | some sp => some (c :: sp)
      | none => firstBalancedSpan rest
    else if c = lbrack then
      match balLoop lbrack rbrack 1 rest with
      | some sp => some (c :: sp)
      | none => firstBalancedSpan rest
    else firstBalancedSpan rest

/-- Modelled from the claim's words, not from the source: extraction that
parses the first balanced span and returns it on success. -/
def claimedExtractJson (text : List Char) : List Char :=
  match firstBalancedSpan text with
  | some m => if jsonValid m then m else text
  | none => text

/-- No candidate for the regex anywhere in the text: no `\x7b` with a
later `\x7d` and no `[` with a later `]`. -/
def candFree (cs : List Char) : Prop :=
  ∀ A c B, cs = A ++ c :: B →
    ¬(c = lbrace ∧ rbrace ∈ B) ∧ ¬(c = lbrack ∧ rbrack ∈ B)

/-- Declarative characterization of the regex match: `m` spans from the
first candidate opener in `cs` (no earlier position holds an opener with a
matching closer anywhere after it) to the last matching closer in the text
(no matching closer occurs in `B`). -/
def GreedySpanAt (cs A m B : List Char) : Prop :=
  cs = A ++ m ++ B ∧
  ((∃ mid, m = lbrace :: mid ++ [rbrace] ∧ rbrace ∉ B) ∨
    (∃ mid, m = lbrack :: mid ++ [rbrack] ∧ rbrack ∉ B)) ∧
  ∀ A1 c A2, A = A1 ++ c :: A2 →
    ¬(c = lbrace ∧ rbrace ∈ A2 ++ m ++ B) ∧ ¬(c = lbrack ∧ rbrack ∈ A2 ++ m ++ B)

/-! ### The prompt flattener `convertPromptToText` -/

inductive ContentPart
  | text (t : String)
  | other
deriving DecidableEq, Repr

inductive Role
  | system
  | user
  | assistant
  | otherRole
deriving DecidableEq, Repr

inductive MsgContent
  | str (s : String)
  | parts (ps : List ContentPart)
deriving DecidableEq, Repr

structure PromptMsg where
  role : Role
  content : MsgContent
deriving DecidableEq, Repr

/-- The prompt as received: an array of messages (`none` models a `null`
or non-object entry, skipped by the guard at the top of the loop), a raw
string, or an absent/`null` prompt. -/
inductive PromptInput
  | arr (msgs : List (Option PromptMsg))
  | raw (s : String)
  | absent
deriving DecidableEq, Repr

/-- The text parts of a multi-part content: `filter(type === "text")`,
`map(part.text)` (missing text renders as `""`), then `.filter(Boolean)`
dropping empty strings. -/
def renderParts (ps : List ContentPart) : List String :=
  (ps.filterMap fun p => match p with
    | .text t => some t
    | .other => none).filter (fun t => t ≠ "")

/-- One iteration of the message loop of `convertPromptToText`: system
messages with string content are `unshift`ed (prepended to the whole
accumulated array), user/assistant messages are pushed; everything else is
skipped. -/
def stepMsg (acc : List String) (m : Option PromptMsg) : List String :=
  match m with
  | none => acc
  | some msg =>
    match msg.role, msg.content with
    | .system, .str s => ("System: " ++ s) :: acc
    | .system, .parts _ => acc
    | .user, .str s => acc ++ [s]
    | .assistant, .str s => acc ++ [s]
    | .user, .parts ps =>
      let tp := renderParts ps
      if tp ≠ [] then acc ++ [String.intercalate " " tp] else acc
    | .assistant, .parts ps =>
      let tp := renderParts ps
      if tp ≠ [] then acc ++ [String.intercalate " " tp] else acc
    | .otherRole, _ => acc

/-- `convertPromptToText` from `goose-web-language-model.ts`. -/
def convertPromptToText : PromptInput → String
  | .arr msgs => String.intercalate "\n\n" (msgs.foldl stepMsg [])
  | .raw s => s
  | .absent => ""

/-- System messages rendered in encounter order (`"System: " + content`,
string content only). -/
def systemRenders (msgs : List (Option PromptMsg)) : List String :=
  msgs.filterMap fun m =>
    match m with
    | some ⟨.system, .str s⟩ => some ("System: " ++ s)
    | _ => none

/-- User/assistant messages rendered in encounter order. -/
def otherRenders (msgs : List (Option PromptMsg)) : List String :=
  msgs.filterMap fun m =>
    match m with
    | some ⟨.user, .str s⟩ => some s
    | some ⟨.assistant, .str s⟩ => some s
    | some ⟨.user, .parts ps⟩ =>
      if renderParts ps ≠ [] then some (String.intercalate " " (renderParts ps)) else none
    | some ⟨.assistant, .parts ps⟩ =>
      if renderParts ps ≠ [] then some (String.intercalate " " (renderParts ps)) else none
    | _ => none

/-! ### Transport events and stream parts -/

/-- A tool-call identifier: either supplied by the remote (`data.id`) or
generated locally (`data.id || generateId()`). -/
inductive CallId
  | remote (s : String)
  | generated (n : Nat)
deriving DecidableEq, Repr

/-- `LanguageModelV2StreamPart`s produced by the streaming path. -/
inductive StreamPart
  | textStart (id : Nat)
  | textDelta (id : Nat) (delta : String)
  | textEnd (id : Nat)
  | toolCall (toolCallId : CallId) (toolName : String) (input : String)
  | toolResult (toolCallId : CallId) (toolName : String) (result : String)
  | finishPart (finishReason : String)
  | errorPart (message : String)
deriving DecidableEq, Repr

/-- The `result` field of a `tool_response` message: a single string, or a
list of fragments already rendered to text (`r.text || JSON.stringify(r)`). -/
inductive ResultVal
  | str (s : String)
  | arr (items : List String)
deriving DecidableEq, Repr

/-- A decoded inbound WebSocket message (`GooseWebResponse`), plus
`malformed` for a payload on which `JSON.parse` throws (caught and
logged).  Absent optional fields are `none`; an absent `content` is
modelled as `""` (both are falsy under `if (data.content)`). -/
inductive GooseWebResponse
  | response (content : String)
  | toolRequest (id : Option String) (toolName : Option String) (arguments : Option String)
  | toolResponse (id : Option String) (toolName : Option String) (result : Option ResultVal)
  | complete
  | errorResp (message : Option String)
  | thinking
  | cancelled
  | malformed
deriving DecidableEq, Repr

/-- `data.tool_name || "unknown"` (empty string is falsy). -/
def toolNameOrUnknown : Option String → String
  | some n => if n = "" then "unknown" else n
  | none => "unknown"

/-- `JSON.stringify(data.arguments || \x7b\x7d)`: the arguments are kept
pre-stringified; an absent value stringifies the empty object. -/
def argumentsJson : Option String → String
  | some a => a
  | none => "\x7b\x7d"

/-- Rendering of a tool result: arrays are joined with newlines, strings
kept as-is. -/
def renderResult : ResultVal → String
  | .str s => s
  | .arr items => String.intercalate "\n" items

/-- JS truthiness of `data.result`: absent and the empty string are falsy,
any array (even empty) is truthy. -/
def resultTruthy : Option ResultVal → Bool
  | none => false
  | some (.str s) => s ≠ ""
  | some (.arr _) => true

/-- `data.message || "Unknown error from Goose server"`. -/
def errorMessageOf : Option String → String
  | some m => if m = "" then "Unknown error from Goose server" else m
  | none => "Unknown error from Goose server"

/-! ### Streaming path: state of `streamResponse` -/

/-- The mutable state captured by the `streamResponse` closure.
`nextId` is the deterministic model of `generateId()`; `wsClosed` and
`timeoutCleared` record `ws.close()` and `clearTimeout(timeout)`. -/
structure StreamState where
  responseText : String
  finished : Bool
  currentStreamingMessage : Option (Nat × String)
  textStartEmitted : Bool
  pendingTextStart : Option StreamPart
  messageQueue : List StreamPart
  nextId : Nat
  timeoutCleared : Bool
  wsClosed : Bool
deriving DecidableEq, Repr

def initStreamState : StreamState :=
  { responseText := ""
    finished := false
    currentStreamingMessage := none
    textStartEmitted := false
    pendingTextStart := none
    messageQueue := []
    nextId := 0
    timeoutCleared := false
    wsClosed := false }

/-- `enqueueStreamPart`: a `text-start` is buffered in `pendingTextStart`
and only queued together with the next `text-delta`; everything else is
appended to the queue directly. -/
def enqueueStreamPart (s : StreamState) (part : StreamPart) : StreamState :=
  match part with
  | .textStart _ => { s with pendingTextStart := some part }
  | .textDelta _ _ =>
    match s.pendingTextStart with
    | some pending =>
      { s with messageQueue := s.messageQueue ++ [pending, part], pendingTextStart := none }
    | none => { s with messageQueue := s.messageQueue ++ [part] }
  | _ => { s with messageQueue := s.messageQueue ++ [part] }

/-- `data.id || generateId()`: a present non-empty id is reused verbatim,
otherwise a fresh id is generated. -/
def orGenerateId (dataId : Option String) (s : StreamState) : CallId × StreamState :=
  match dataId with
  | some i =>
    if i = "" then (.generated s.nextId, { s with nextId := s.nextId + 1 })
    else (.remote i, s)
  | none => (.generated s.nextId, { s with nextId := s.nextId + 1 })

/-- The `ws.onmessage` dispatch of `streamResponse`, one decoded message at
a time. -/
def onMessage (s : StreamState) (data : GooseWebResponse) : StreamState :=
  match data with
  | .response content =>
    if content = "" then s
    else
      let s := { s with responseText := s.responseText ++ content }
      if !s.textStartEmitted then
        let textPartId := s.nextId
        let s := { s with
          nextId := s.nextId + 1
          currentStreamingMessage := some (textPartId, content)
          textStartEmitted := true }
        let s := enqueueStreamPart s (.textStart textPartId)
        enqueueStreamPart s (.textDelta textPartId content)
      else
        match s.currentStreamingMessage with
        | some (textPartId, c) =>
          let s := { s with currentStreamingMessage := some (textPartId, c ++ content) }
          enqueueStreamPart s (.textDelta textPartId content)
        | none => s
  | .toolRequest id toolName args =>
    let s :=
      match s.currentStreamingMessage with
      | some (textPartId, _) =>
        let s := enqueueStreamPart s (.textEnd textPartId)
        { s with currentStreamingMessage := none }
      | none => s
    let s := { s with textStartEmitted := false }
    let callId := (orGenerateId id s).1
    let s := (orGenerateId id s).2
    enqueueStreamPart s (.toolCall callId (toolNameOrUnknown toolName) (argumentsJson args))
  | .toolResponse id toolName result =>
    let s := { s with currentStreamingMessage := none, textStartEmitted := false }
    if resultTruthy result then
      let callId := (orGenerateId id s).1
      let s' := (orGenerateId id s).2
      enqueueStreamPart s'
        (.toolResult callId (toolNameOrUnknown toolName)
          (renderResult (result.getD (.str ""))))
    else s
  | .complete =>
    let s := { s with finished := true, timeoutCleared := true }
    let s :=
      match s.currentStreamingMessage with
      | some (textPartId, _) =>
        let s := enqueueStreamPart s (.textEnd textPartId)
        { s with currentStreamingMessage := none }
      | none => s
    enqueueStreamPart s (.finishPart "stop")
  | .errorResp message =>
    let s := { s with finished := true, timeoutCleared := true }
    let s :=
      match s.currentStreamingMessage with
      | some (textPartId, _) =>
        let s := enqueueStreamPart s (.textEnd textPartId)
        { s with currentStreamingMessage := none }
      | none => s
    enqueueStreamPart s (.errorPart (errorMessageOf message))
  | .thinking => s
  | .cancelled => s
  | .malformed => s

/-- An input to the streaming state machine: a decoded inbound message, or
the expiry of the response-deadline timer. -/
inductive StreamInput
  | msg (data : GooseWebResponse)
  | timeoutFired
deriving DecidableEq, Repr

/-- One step of the streaming path.  The timeout handler of
`streamResponse` only calls `ws.close()` (and wakes a suspended consumer
with a `done` result that the stored resolver discards): it neither sets
`finished` nor enqueues any part. -/
def stepStream (s : StreamState) : StreamInput → StreamState
  | .msg data => onMessage s data
  | .timeoutFired => if s.timeoutCleared then s else { s with wsClosed := true }

def runStream (inputs : List StreamInput) : StreamState :=
  inputs.foldl stepStream initStreamState

/-! ### Aggregated path: state of `generateResponse` -/

inductive GenOutcome
  | resolvedText (text : String) (finishReason : String)
  | rejectedRemoteError (message : String)
  | rejectedTimeout
deriving DecidableEq, Repr

/-- State of the `generateResponse` promise: accumulated text, the first
settlement (later resolutions/rejections are no-ops), and the timer/socket
flags. -/
structure GenState where
  responseText : String
  settled : Option GenOutcome
  timeoutCleared : Bool
  wsClosed : Bool
deriving DecidableEq, Repr

def initGenState : GenState :=
  { responseText := "", settled := none, timeoutCleared := false, wsClosed := false }

/-- Settling a promise: only the first settlement takes effect. -/
def settle (s : GenState) (o : GenOutcome) : GenState :=
  match s.settled with
  | some _ => s
  | none => { s with settled := some o }

/-- The `ws.onmessage` dispatch of `generateResponse`: only `response`,
`complete` and `error` have cases; all other tags fall through. -/
def onMessageGen (s : GenState) (data : GooseWebResponse) : GenState :=
  match data with
  | .response content =>
    if content = "" then s else { s with responseText := s.responseText ++ content }
  | .complete =>
    let s := { s with timeoutCleared := true }
    settle s (.resolvedText s.responseText "stop")
  | .errorResp message =>
    let s := { s with timeoutCleared := true }
    settle s (.rejectedRemoteError (errorMessageOf message))
  | _ => s

/-- One step of the aggregated path; the timeout handler calls
`ws.close()` and rejects with a `TimeoutError`. -/
def stepGen (s : GenState) : StreamInput → GenState
  | .msg data => onMessageGen s data
  | .timeoutFired =>
    if s.timeoutCleared then s else settle { s with wsClosed := true } .rejectedTimeout

def runGen (inputs : List StreamInput) : GenState :=
  inputs.foldl stepGen initGenState

/-! ### JSON-mode stream filtering (`createStreamFromAsyncGenerator`) -/

def isTextPart : StreamPart → Bool
  | .textStart _ => true
  | .textDelta _ _ => true
  | .textEnd _ => true
  | _ => false

def isFinishPart : StreamPart → Bool
  | .finishPart _ => true
  | _ => false

/-- One accumulation step of `accumulatedText` in
`createStreamFromAsyncGenerator`. -/
def accStep (acc : String) (p : StreamPart) : String :=
  match p with
  | .textDelta _ d => acc ++ d
  | _ => acc

def accDeltas (acc : String) (parts : List StreamPart) : String :=
  parts.foldl accStep acc

/-- Concatenation of all `text-delta` payloads, as accumulated by
`createStreamFromAsyncGenerator`. -/
def deltasText (parts : List StreamPart) : String :=
  accDeltas "" parts

/-- The consumer loop of `createStreamFromAsyncGenerator`: accumulate
deltas; on a `finish` part in JSON mode with nonempty accumulated text,
emit a fresh `text-start`/`text-delta`/`text-end` triple carrying
`extractJson` of the accumulated text when extraction changed it, before
the finish part itself; in JSON mode skip every text part coming from the
generator. -/
def processLoop (jsonMode : Bool) (jsonId : Nat) (acc : String) :
    List StreamPart → List StreamPart
  | [] => []
  | p :: rest =>
    let acc' := accStep acc p
    let injected : List StreamPart :=
      match p with
      | .finishPart _ =>
        if jsonMode ∧ acc' ≠ "" ∧ extractJsonStr acc' ≠ acc' then
          [.textStart jsonId, .textDelta jsonId (extractJsonStr acc'), .textEnd jsonId]
        else []
      | _ => []
    let keep : List StreamPart := if jsonMode && isTextPart p then [] else [p]
    injected ++ keep ++ processLoop jsonMode jsonId acc' rest

def createStreamOutput (jsonMode : Bool) (jsonId : Nat) (parts : List StreamPart) :
    List StreamPart :=
  processLoop jsonMode jsonId "" parts

/-- Appending one part to the queue of a state (the effect of the default
branch of `enqueueStreamPart`); used to state unfolding equations. -/
def appendPart (s : StreamState) (p : StreamPart) : StreamState :=
  { s with messageQueue := s.messageQueue ++ [p] }

/-! ### Predicates for the lifecycle invariants -/

/-- The segment id carried by a text-lifecycle part, if any. -/
def textId : StreamPart → Option Nat
  | .textStart id => some id
  | .textDelta id _ => some id
  | .textEnd id => some id
  | _ => none

/-- The segment id `id` occurs (as a text-start, text-delta or text-end)
somewhere in the list. -/
def usesId (id : Nat) (Q : List StreamPart) : Prop :=
  ∃ p ∈ Q, textId p = some id

instance (id : Nat) (Q : List StreamPart) : Decidable (usesId id Q) := by
  unfold usesId; infer_instance

def isDeltaOf (id : Nat) (p : StreamPart) : Prop :=
  ∃ d, p = .textDelta id d

def isToolResult : StreamPart → Bool
  | .toolResult _ _ _ => true
  | _ => false

/-- Message tags with no observable effect on either path: unrecognized or
forward-compatibility tags, and undecodable payloads. -/
def isIgnorableMessage : GooseWebResponse → Bool
  | .thinking => true
  | .cancelled => true
  | .malformed => true
  | _ => false

/-- Well-formedness of an emitted part sequence: every delta/end is
preceded by the matching start, ids are never reused after their end,
the deltas of one id form one contiguous run, starts are the first use of
their id, and no id has deltas on both sides of a tool-call. -/
structure QueueInv (Q : List StreamPart) : Prop where
  opened_delta : ∀ A B id d, Q = A ++ .textDelta id d :: B → .textStart id ∈ A
  opened_end : ∀ A B id, Q = A ++ .textEnd id :: B → .textStart id ∈ A
  closed_after : ∀ A B id, Q = A ++ .textEnd id :: B → ¬ usesId id B
  start_first : ∀ A B id, Q = A ++ .textStart id :: B → ¬ usesId id A
  contiguous : ∀ A B C id d d',
    Q = A ++ .textDelta id d :: B ++ .textDelta id d' :: C → ∀ x ∈ B, isDeltaOf id x
  no_delta_after_tool : ∀ A B C id d tc tn ti,
    Q = A ++ .textDelta id d :: B ++ .toolCall tc tn ti :: C →
    ¬ ∃ d', .textDelta id d' ∈ C

/-- The inductive invariant of the streaming state: no buffered
`text-start` between messages, all used ids below the id counter, a
well-formed queue, and — when a segment is open — the queue ends in that
segment's start followed only by its deltas. -/
structure StateInv (s : StreamState) : Prop where
  pending_none : s.pendingTextStart = none
  ids_lt : ∀ id, usesId id s.messageQueue → id < s.nextId
  queue_inv : QueueInv s.messageQueue
  open_tail : ∀ id c, s.currentStreamingMessage = some (id, c) →
    ∃ E ds, s.messageQueue = E ++ .textStart id :: ds ∧
      (∀ x ∈ ds, isDeltaOf id x) ∧ ¬ usesId id E

/-! ### List surgery helpers -/

theorem append_singleton_cases {α : Type} {Q A B : List α} {x y : α}
    (h : Q ++ [x] = A ++ y :: B) :
    (∃ B', Q = A ++ y :: B' ∧ B = B' ++ [x]) ∨ (A = Q ∧ y = x ∧ B = []) := by
  rcases List.eq_nil_or_concat B with rfl | ⟨B', b, rfl⟩
  · obtain ⟨h1, h2⟩ := List.append_inj' h rfl
    exact Or.inr ⟨h1.symm, (List.cons.injEq _ _ _ _ ▸ h2).1.symm, rfl⟩
  · have h' : Q ++ [x] = (A ++ y :: B') ++ [b] := by
      simpa [List.concat_eq_append] using h
    obtain ⟨h1, h2⟩ := List.append_inj' h' rfl
    have hxb : x = b := (List.cons.injEq _ _ _ _ ▸ h2).1
    subst hxb
    exact Or.inl ⟨B', h1, by simp [List.concat_eq_append]⟩

theorem append_singleton_cases₂ {α : Type} {Q A B C : List α} {x p q : α}
    (h : Q ++ [x] = A ++ p :: B ++ q :: C) :
    (∃ C', Q = A ++ p :: B ++ q :: C' ∧ C = C' ++ [x]) ∨
      (Q = A ++ p :: B ∧ q = x ∧ C = []) := by
  have h' : Q ++ [x] = (A ++ p :: B) ++ q :: C := by simpa using h
  rcases append_singleton_cases h' with ⟨C', h1, h2⟩ | ⟨h1, h2, h3⟩
  · exact Or.inl ⟨C', by simpa using h1, h2⟩
  · exact Or.inr ⟨h1.symm, h2, h3⟩

theorem middle_cases {α : Type} {A E B D : List α} {p y : α}
    (h : A ++ p :: B = E ++ y :: D) :
    p ∈ E ∨ (A = E ∧ p = y ∧ B = D) ∨
      ∃ D₁ D₂, D = D₁ ++ p :: D₂ ∧ A = E ++ y :: D₁ ∧ B = D₂ := by
  rcases List.append_eq_append_iff.mp h with ⟨a', ha1, ha2⟩ | ⟨c', hc1, hc2⟩
  · cases a' with
    | nil =>
      simp only [List.append_nil] at ha1
      obtain ⟨hpy, hBD⟩ := List.cons.injEq _ _ _ _ ▸ ha2
      exact Or.inr (Or.inl ⟨ha1.symm, hpy, hBD⟩)
    | cons q a'' =>
      obtain ⟨hpq, _⟩ := List.cons.injEq _ _ _ _ ▸ ha2
      subst hpq
      exact Or.inl (ha1 ▸ List.mem_append_right A (List.mem_cons_self _ _))
  · cases c' with
    | nil =>
      simp only [List.append_nil] at hc1
      obtain ⟨hyp, hDB⟩ := List.cons.injEq _ _ _ _ ▸ hc2
      exact Or.inr (Or.inl ⟨hc1, hyp.symm, hDB.symm⟩)
    | cons q c'' =>
      obtain ⟨hyq, hD⟩ := List.cons.injEq _ _ _ _ ▸ hc2
      subst hyq
      exact Or.inr (Or.inr ⟨c'', B, hD, hc1, rfl⟩)

theorem usesId_append {id : Nat} {Q R : List StreamPart} :
    usesId id (Q ++ R) ↔ usesId id Q ∨ usesId id R := by
  constructor
  · rintro ⟨p, hp, hid⟩
    rcases List.mem_append.mp hp with h | h
    exacts [Or.inl ⟨p, h, hid⟩, Or.inr ⟨p, h, hid⟩]
  · rintro (⟨p, hp, hid⟩ | ⟨p, hp, hid⟩)
    exacts [⟨p, List.mem_append_left _ hp, hid⟩, ⟨p, List.mem_append_right _ hp, hid⟩]

theorem usesId_of_mem {id : Nat} {Q : List StreamPart} {p : StreamPart}
    (hp : p ∈ Q) (hid : textId p = some id) : usesId id Q :=
  ⟨p, hp, hid⟩

/-! ### Queue invariant preservation under the four kinds of appends -/

theorem queueInv_nil : QueueInv [] where
  opened_delta := by intro A B id d h; exact absurd h (by simp)
  opened_end := by intro A B id h; exact absurd h (by simp)
  closed_after := by intro A B id h; exact absurd h (by simp)
  start_first := by intro A B id h; exact absurd h (by simp)
  contiguous := by intro A B C id d d' h; exact absurd h (by simp)
  no_delta_after_tool := by intro A B C id d tc tn ti h; exact absurd h (by simp)

theorem queueInv_append_nontext {Q : List StreamPart} {x : StreamPart}
    (h : QueueInv Q) (hx : textId x = none) : QueueInv (Q ++ [x]) where
  opened_delta := by
    intro A B id d hsplit
    rcases append_singleton_cases hsplit with ⟨B', h1, _⟩ | ⟨_, h2, _⟩
    · exact h.opened_delta A B' id d h1
    · rw [← h2] at hx; simp [textId] at hx
  opened_end := by
    intro A B id hsplit
    rcases append_singleton_cases hsplit with ⟨B', h1, _⟩ | ⟨_, h2, _⟩
    · exact h.opened_end A B' id h1
    · rw [← h2] at hx; simp [textId] at hx
  closed_after := by
    intro A B id hsplit huse
    rcases append_singleton_cases hsplit with ⟨B', h1, h2⟩ | ⟨_, h2, _⟩
    · subst h2
      rcases (usesId_append.mp huse) with h3 | ⟨p, hp, hpid⟩
      · exact h.closed_after A B' id h1 h3
      · simp only [List.mem_singleton] at hp
        subst hp; rw [hpid] at hx; cases hx
    · rw [← h2] at hx; simp [textId] at hx
  start_first := by
    intro A B id hsplit
    rcases append_singleton_cases hsplit with ⟨B', h1, _⟩ | ⟨_, h2, _⟩
    · exact h.start_first A B' id h1
    · rw [← h2] at hx; simp [textId] at hx
  contiguous := by
    intro A B C id d d' hsplit
    rcases append_singleton_cases₂ hsplit with ⟨C', h1, _⟩ | ⟨_, h2, _⟩
    · exact h.contiguous A B C' id d d' h1
    · rw [← h2] at hx; simp [textId] at hx
  no_delta_after_tool := by
    intro A B C id d tc tn ti hsplit
    rintro ⟨d', hd'⟩
    rcases append_singleton_cases₂ hsplit with ⟨C', h1, h2⟩ | ⟨h1, h2, h3⟩
    · subst h2
      rcases List.mem_append.mp hd' with h3 | h3
      · exact h.no_delta_after_tool A B C' id d tc tn ti h1 ⟨d', h3⟩
      · simp only [List.mem_singleton] at h3
        rw [← h3] at hx; simp [textId] at hx
    · subst h3; simp at hd'

theorem queueInv_append_start {Q : List StreamPart} {id : Nat}
    (h : QueueInv Q) (hfresh : ¬ usesId id Q) : QueueInv (Q ++ [.textStart id]) where
  opened_delta := by
    intro A B id' d hsplit
    rcases append_singleton_cases hsplit with ⟨B', h1, _⟩ | ⟨_, h2, _⟩
    · exact h.opened_delta A B' id' d h1
    · exact absurd h2 (by simp)
  opened_end := by
    intro A B id' hsplit
    rcases append_singleton_cases hsplit with ⟨B', h1, _⟩ | ⟨_, h2, _⟩
    · exact h.opened_end A B' id' h1
    · exact absurd h2 (by simp)
  closed_after := by
    intro A B id' hsplit huse
    rcases append_singleton_cases hsplit with ⟨B', h1, h2⟩ | ⟨_, h2, _⟩
    · subst h2
      rcases (usesId_append.mp huse) with h3 | ⟨p, hp, hpid⟩
      · exact h.closed_after A B' id' h1 h3
      · simp only [List.mem_singleton] at hp
        subst hp
        simp only [textId, Option.some.injEq] at hpid
        subst hpid
        exact hfresh (usesId_of_mem
          (h1 ▸ List.mem_append_right A (List.mem_cons_self _ _)) (by simp [textId]))
    · exact absurd h2 (by simp)
  start_first := by
    intro A B id' hsplit
    rcases append_singleton_cases hsplit with ⟨B', h1, _⟩ | ⟨h1, h2, _⟩
    · exact h.start_first A B' id' h1
    · subst h1
      have : id' = id := by simpa using h2
      subst this
      exact hfresh
  contiguous := by
    intro A B C id' d d' hsplit
    rcases append_singleton_cases₂ hsplit with ⟨C', h1, _⟩ | ⟨_, h2, _⟩
    · exact h.contiguous A B C' id' d d' h1
    · exact absurd h2 (by simp)
  no_delta_after_tool := by
    intro A B C id' d tc tn ti hsplit
    rintro ⟨d', hd'⟩
    rcases append_singleton_cases₂ hsplit with ⟨C', h1, h2⟩ | ⟨_, h2, _⟩
    · subst h2
      rcases List.mem_append.mp hd' with h3 | h3
      · exact h.no_delta_after_tool A B C' id' d tc tn ti h1 ⟨d', h3⟩
      · simp at h3
    · exact absurd h2 (by simp)

/-- In a queue of the form `E ++ start id :: ds` where `E` does not use
`id` and `ds` holds only deltas of `id`, any part carrying `id` is either
that very start or sits inside `ds`. -/
theorem shape_locate {Q E ds A B : List StreamPart} {id : Nat} {p : StreamPart}
    (hQ : Q = E ++ .textStart id :: ds) (hE : ¬ usesId id E)
    (hsplit : Q = A ++ p :: B) (hpid : textId p = some id) :
    (p = .textStart id ∧ A = E ∧ B = ds) ∨
      ∃ ds₁ ds₂, ds = ds₁ ++ p :: ds₂ ∧ A = E ++ .textStart id :: ds₁ ∧ B = ds₂ := by
  have h' : A ++ p :: B = E ++ StreamPart.textStart id :: ds := hsplit.symm.trans hQ
  rcases middle_cases h' with hmem | ⟨h1, h2, h3⟩ | ⟨D₁, D₂, h1, h2, h3⟩
  · exact absurd (usesId_of_mem hmem hpid) hE
  · exact Or.inl ⟨h2, h1, h3⟩
  · exact Or.inr ⟨D₁, D₂, h1, h2, h3⟩

theorem queueInv_append_delta {Q E ds : List StreamPart} {id : Nat} {d : String}
    (h : QueueInv Q) (hQ : Q = E ++ .textStart id :: ds)
    (hds : ∀ x ∈ ds, isDeltaOf id x) (hE : ¬ usesId id E) :
    QueueInv (Q ++ [.textDelta id d]) where
  opened_delta := by
    intro A B id' d' hsplit
    rcases append_singleton_cases hsplit with ⟨B', h1, _⟩ | ⟨h1, h2, _⟩
    · exact h.opened_delta A B' id' d' h1
    · subst h1
      obtain ⟨hid, _⟩ : id' = id ∧ d' = d := by simpa using h2
      subst hid
      exact hQ ▸ List.mem_append_right E (List.mem_cons_self _ _)
  opened_end := by
    intro A B id' hsplit
    rcases append_singleton_cases hsplit with ⟨B', h1, _⟩ | ⟨_, h2, _⟩
    · exact h.opened_end A B' id' h1
    · exact absurd h2 (by simp)
  closed_after := by
    intro A B id' hsplit huse
    rcases append_singleton_cases hsplit with ⟨B', h1, h2⟩ | ⟨_, h2, _⟩
    · subst h2
      have hne : id' ≠ id := by
        intro he
        subst he
        rcases shape_locate hQ hE h1 (by simp [textId]) with ⟨h3, _, _⟩ | ⟨ds₁, ds₂, h3, _, _⟩
        · cases h3
        · obtain ⟨d₀, hd₀⟩ := hds _ (h3 ▸ List.mem_append_right ds₁ (List.mem_cons_self _ _))
          cases hd₀
      rcases (usesId_append.mp huse) with h3 | ⟨p, hp, hpid⟩
      · exact h.closed_after A B' id' h1 h3
      · simp only [List.mem_singleton] at hp
        subst hp
        simp only [textId, Option.some.injEq] at hpid
        exact hne hpid.symm
    · exact absurd h2 (by simp)
  start_first := by
    intro A B id' hsplit
    rcases append_singleton_cases hsplit with ⟨B', h1, _⟩ | ⟨_, h2, _⟩
    · exact h.start_first A B' id' h1
    · exact absurd h2 (by simp)
  contiguous := by
    intro A B C id' d₁ d₂ hsplit
    rcases append_singleton_cases₂ hsplit with ⟨C', h1, _⟩ | ⟨h1, h2, _⟩
    · exact h.contiguous A B C' id' d₁ d₂ h1
    · obtain ⟨hid, _⟩ : id' = id ∧ d₂ = d := by simpa using h2
      subst hid
      rcases shape_locate hQ hE h1 (by simp [textId]) with
        ⟨h3, _, _⟩ | ⟨ds₁, ds₂, hdseq, _, hB⟩
      · cases h3
      · intro x hx
        subst hB
        exact hds x (hdseq ▸ List.mem_append_right ds₁ (List.mem_cons_of_mem _ hx))
  no_delta_after_tool := by
    intro A B C id' d₁ tc tn ti hsplit
    rintro ⟨d', hd'⟩
    rcases append_singleton_cases₂ hsplit with ⟨C', h1, h2⟩ | ⟨_, h2, _⟩
    · subst h2
      rcases List.mem_append.mp hd' with h3 | h3
      · exact h.no_delta_after_tool A B C' id' d₁ tc tn ti h1 ⟨d', h3⟩
      · simp only [List.mem_singleton] at h3
        obtain ⟨hid, _⟩ : id' = id ∧ d' = d := by simpa using h3
        subst hid
        rcases shape_locate hQ hE (by simpa using h1) (by simp [textId]) with
          ⟨h4, _, _⟩ | ⟨ds₁, ds₂, h4, _, h5⟩
        · cases h4
        · obtain ⟨d₀, hd₀⟩ := hds (.toolCall tc tn ti) (by
            refine h4 ▸ List.mem_append_right ds₁ (List.mem_cons_of_mem _ ?_)
            exact h5 ▸ List.mem_append_right B (List.mem_cons_self _ _))
          cases hd₀
    · exact absurd h2 (by simp)

theorem queueInv_append_end {Q E ds : List StreamPart} {id : Nat}
    (h : QueueInv Q) (hQ : Q = E ++ .textStart id :: ds)
    (hds : ∀ x ∈ ds, isDeltaOf id x) (hE : ¬ usesId id E) :
    QueueInv (Q ++ [.textEnd id]) where
  opened_delta := by
    intro A B id' d' hsplit
    rcases append_singleton_cases hsplit with ⟨B', h1, _⟩ | ⟨_, h2, _⟩
    · exact h.opened_delta A B' id' d' h1
    · exact absurd h2 (by simp)
  opened_end := by
    intro A B id' hsplit
    rcases append_singleton_cases hsplit with ⟨B', h1, _⟩ | ⟨h1, h2, _⟩
    · exact h.opened_end A B' id' h1
    · subst h1
      have hid : id' = id := by simpa using h2
      subst hid
      exact hQ ▸ List.mem_append_right E (List.mem_cons_self _ _)
  closed_after := by
    intro A B id' hsplit huse
    rcases append_singleton_cases hsplit with ⟨B', h1, h2⟩ | ⟨_, _, h3⟩
    · subst h2
      have hne : id' ≠ id := by
        intro he
        subst he
        rcases shape_locate hQ hE h1 (by simp [textId]) with ⟨h3, _, _⟩ | ⟨ds₁, ds₂, h3, _, _⟩
        · cases h3
        · obtain ⟨d₀, hd₀⟩ := hds _ (h3 ▸ List.mem_append_right ds₁ (List.mem_cons_self _ _))
          cases hd₀
      rcases (usesId_append.mp huse) with h3 | ⟨p, hp, hpid⟩
      · exact h.closed_after A B' id' h1 h3
      · simp only [List.mem_singleton] at hp
        subst hp
        simp only [textId, Option.some.injEq] at hpid
        exact hne hpid.symm
    · subst h3
      obtain ⟨p, hp, _⟩ := huse
      simp at hp
  start_first := by
    intro A B id' hsplit
    rcases append_singleton_cases hsplit with ⟨B', h1, _⟩ | ⟨_, h2, _⟩
    · exact h.start_first A B' id' h1
    · exact absurd h2 (by simp)
  contiguous := by
    intro A B C id' d₁ d₂ hsplit
    rcases append_singleton_cases₂ hsplit with ⟨C', h1, _⟩ | ⟨_, h2, _⟩
    · exact h.contiguous A B C' id' d₁ d₂ h1
    · exact absurd h2 (by simp)
  no_delta_after_tool := by
    intro A B C id' d₁ tc tn ti hsplit
    rintro ⟨d', hd'⟩
    rcases append_singleton_cases₂ hsplit with ⟨C', h1, h2⟩ | ⟨_, h2, _⟩
    · subst h2
      rcases List.mem_append.mp hd' with h3 | h3
      · exact h.no_delta_after_tool A B C' id' d₁ tc tn ti h1 ⟨d', h3⟩
      · simp at h3
    · exact absurd h2 (by simp)

/-! ### Unfolding equations for `onMessage` -/

theorem orGenerateId_fields (i : Option String) (s : StreamState) :
    (orGenerateId i s).2.messageQueue = s.messageQueue ∧
    (orGenerateId i s).2.pendingTextStart = s.pendingTextStart ∧
    (orGenerateId i s).2.currentStreamingMessage = s.currentStreamingMessage ∧
    (orGenerateId i s).2.textStartEmitted = s.textStartEmitted ∧
    s.nextId ≤ (orGenerateId i s).2.nextId := by
  cases i with
  | none => simp [orGenerateId]
  | some v =>
    by_cases hv : v = "" <;> simp [orGenerateId, hv]

theorem onMessage_response_empty (s : StreamState) : onMessage s (.response "") = s := by
  simp [onMessage]

theorem onMessage_response_open {s : StreamState} {content : String}
    (hc : content ≠ "") (hts : s.textStartEmitted = false) :
    onMessage s (.response content) =
      { s with responseText := s.responseText ++ content
               nextId := s.nextId + 1
               currentStreamingMessage := some (s.nextId, content)
               textStartEmitted := true
               pendingTextStart := none
               messageQueue :=
                 s.messageQueue ++ [.textStart s.nextId, .textDelta s.nextId content] } := by
  simp [onMessage, hc, hts, enqueueStreamPart]

theorem onMessage_response_append {s : StreamState} {content : String} {id : Nat} {c : String}
    (hc : content ≠ "") (hts : s.textStartEmitted = true)
    (hcsm : s.currentStreamingMessage = some (id, c)) (hp : s.pendingTextStart = none) :
    onMessage s (.response content) =
      { s with responseText := s.responseText ++ content
               currentStreamingMessage := some (id, c ++ content)
               messageQueue := s.messageQueue ++ [.textDelta id content] } := by
  simp [onMessage, hc, hts, hcsm, enqueueStreamPart, hp]

theorem onMessage_response_drop {s : StreamState} {content : String}
    (hc : content ≠ "") (hts : s.textStartEmitted = true)
    (hcsm : s.currentStreamingMessage = none) :
    onMessage s (.response content) =
      { s with responseText := s.responseText ++ content } := by
  simp [onMessage, hc, hts, hcsm]

theorem onMessage_toolRequest_idle {s : StreamState} {i n a : Option String}
    (hcsm : s.currentStreamingMessage = none) :
    onMessage s (.toolRequest i n a) =
      appendPart (orGenerateId i { s with textStartEmitted := false }).2
        (.toolCall (orGenerateId i { s with textStartEmitted := false }).1
          (toolNameOrUnknown n) (argumentsJson a)) := by
  simp [onMessage, hcsm, enqueueStreamPart, appendPart]

theorem onMessage_toolRequest_open {s : StreamState} {i n a : Option String}
    {id : Nat} {c : String}
    (hcsm : s.currentStreamingMessage = some (id, c)) :
    onMessage s (.toolRequest i n a) =
      appendPart
        (orGenerateId i
          { s with messageQueue := s.messageQueue ++ [.textEnd id]
                   currentStreamingMessage := none
                   textStartEmitted := false }).2
        (.toolCall
          (orGenerateId i
            { s with messageQueue := s.messageQueue ++ [.textEnd id]
                     currentStreamingMessage := none
                     textStartEmitted := false }).1
          (toolNameOrUnknown n) (argumentsJson a)) := by
  simp [onMessage, hcsm, enqueueStreamPart, appendPart]

theorem onMessage_toolResponse_silent {s : StreamState} {i n : Option String}
    {r : Option ResultVal} (hr : resultTruthy r = false) :
    onMessage s (.toolResponse i n r) =
      { s with currentStreamingMessage := none, textStartEmitted := false } := by
  simp [onMessage, hr]

theorem onMessage_toolResponse_emit {s : StreamState} {i n : Option String}
    {r : Option ResultVal} (hr : resultTruthy r = true) :
    onMessage s (.toolResponse i n r) =
      appendPart
        (orGenerateId i
          { s with currentStreamingMessage := none, textStartEmitted := false }).2
        (.toolResult
          (orGenerateId i
            { s with currentStreamingMessage := none, textStartEmitted := false }).1
          (toolNameOrUnknown n) (renderResult (r.getD (.str "")))) := by
  simp [onMessage, hr, enqueueStreamPart, appendPart]

theorem onMessage_complete_idle {s : StreamState}
    (hcsm : s.currentStreamingMessage = none) :
    onMessage s .complete =
      { s with finished := true, timeoutCleared := true
               messageQueue := s.messageQueue ++ [.finishPart "stop"] } := by
  simp [onMessage, hcsm, enqueueStreamPart]

theorem onMessage_complete_open {s : StreamState} {id : Nat} {c : String}
    (hcsm : s.currentStreamingMessage = some (id, c)) :
    onMessage s .complete =
      { s with finished := true, timeoutCleared := true
               currentStreamingMessage := none
               messageQueue := s.messageQueue ++ [.textEnd id, .finishPart "stop"] } := by
  simp [onMessage, hcsm, enqueueStreamPart]

theorem onMessage_error_idle {s : StreamState} {m : Option String}
    (hcsm : s.currentStreamingMessage = none) :
    onMessage s (.errorResp m) =
      { s with finished := true, timeoutCleared := true
               messageQueue := s.messageQueue ++ [.errorPart (errorMessageOf m)] } := by
  simp [onMessage, hcsm, enqueueStreamPart]

theorem onMessage_error_open {s : StreamState} {m : Option String} {id : Nat} {c : String}
    (hcsm : s.currentStreamingMessage = some (id, c)) :
    onMessage s (.errorResp m) =
      { s with finished := true, timeoutCleared := true
               currentStreamingMessage := none
               messageQueue :=
                 s.messageQueue ++ [.textEnd id, .errorPart (errorMessageOf m)] } := by
  simp [onMessage, hcsm, enqueueStreamPart]

/-! ### State invariant preservation -/

theorem stateInv_orGenerateId {t : StreamState} (ht : StateInv t) (i : Option String) :
    StateInv (orGenerateId i t).2 := by
  obtain ⟨hq, hpend, hcsm, _, hnext⟩ := orGenerateId_fields i t
  refine ⟨?_, ?_, ?_, ?_⟩
  · rw [hpend]; exact ht.pending_none
  · intro id hu
    rw [hq] at hu
    exact lt_of_lt_of_le (ht.ids_lt id hu) hnext
  · rw [hq]; exact ht.queue_inv
  · intro id c h'
    rw [hcsm] at h'
    rw [hq]
    exact ht.open_tail id c h'

theorem stateInv_appendPart_nontext {t : StreamState} (ht : StateInv t) {p : StreamPart}
    (hp : textId p = none) (hcsm : t.currentStreamingMessage = none) :
    StateInv (appendPart t p) := by
  refine ⟨ht.pending_none, ?_, ?_, ?_⟩
  · intro id hu
    rcases usesId_append.mp hu with hu | ⟨q, hq, hqid⟩
    · exact ht.ids_lt id hu
    · simp only [List.mem_singleton] at hq
      subst hq
      rw [hp] at hqid
      cases hqid
  · exact queueInv_append_nontext ht.queue_inv hp
  · intro id c h'
    rw [show (appendPart t p).currentStreamingMessage = t.currentStreamingMessage from rfl,
      hcsm] at h'
    cases h'

theorem stateInv_onMessage {s : StreamState} (h : StateInv s) (data : GooseWebResponse) :
    StateInv (onMessage s data) := by
  cases data with
  | response content =>
    by_cases hc : content = ""
    · subst hc
      rw [onMessage_response_empty]
      exact h
    · by_cases hts : s.textStartEmitted = true
      · cases hcsm : s.currentStreamingMessage with
        | none =>
          rw [onMessage_response_drop hc hts hcsm]
          refine ⟨h.pending_none, h.ids_lt, h.queue_inv, ?_⟩
          intro id c h'
          have h'' : s.currentStreamingMessage = some (id, c) := h'
          rw [hcsm] at h''
          cases h''
        | some pair =>
          obtain ⟨id, c⟩ := pair
          obtain ⟨E, ds, hQ, hds, hE⟩ := h.open_tail id c hcsm
          rw [onMessage_response_append hc hts hcsm h.pending_none]
          refine ⟨h.pending_none, ?_, ?_, ?_⟩
          · intro id' hu
            rcases usesId_append.mp hu with hu | ⟨p, hp, hpid⟩
            · exact h.ids_lt id' hu
            · simp only [List.mem_singleton] at hp
              subst hp
              simp only [textId, Option.some.injEq] at hpid
              subst hpid
              exact h.ids_lt id (usesId_of_mem
                (hQ ▸ List.mem_append_right E (List.mem_cons_self _ _)) (by simp [textId]))
          · exact queueInv_append_delta h.queue_inv hQ hds hE
          · intro id' c' h'
            obtain ⟨hid, _⟩ : id = id' ∧ c ++ content = c' := by simpa using h'
            subst hid
            refine ⟨E, ds ++ [.textDelta id content], ?_, ?_, hE⟩
            · rw [show (({ s with
                responseText := s.responseText ++ content
                currentStreamingMessage := some (id, c ++ content)
                messageQueue := s.messageQueue ++ [.textDelta id content] } :
                  StreamState)).messageQueue =
                s.messageQueue ++ [.textDelta id content] from rfl, hQ]
              simp
            · intro x hx
              rcases List.mem_append.mp hx with hx | hx
              · exact hds x hx
              · simp only [List.mem_singleton] at hx
                subst hx
                exact ⟨content, rfl⟩
      · have hts' : s.textStartEmitted = false := by simpa using hts
        rw [onMessage_response_open hc hts']
        have hfresh : ¬ usesId s.nextId s.messageQueue := fun hu =>
          lt_irrefl _ (h.ids_lt _ hu)
        refine ⟨rfl, ?_, ?_, ?_⟩
        · intro id' hu
          rcases usesId_append.mp hu with hu | ⟨p, hp, hpid⟩
          · exact Nat.lt_succ_of_lt (h.ids_lt id' hu)
          · simp only [List.mem_cons, List.mem_singleton, List.not_mem_nil, or_false] at hp
            rcases hp with rfl | rfl
            · simp only [textId, Option.some.injEq] at hpid
              subst hpid
              exact Nat.lt_succ_self _
            · simp only [textId, Option.some.injEq] at hpid
              subst hpid
              exact Nat.lt_succ_self _
        · have h1 : QueueInv (s.messageQueue ++ [.textStart s.nextId]) :=
            queueInv_append_start h.queue_inv hfresh
          have h2 : QueueInv ((s.messageQueue ++ [.textStart s.nextId]) ++
              [.textDelta s.nextId content]) :=
            queueInv_append_delta h1 rfl (by simp) hfresh
          simpa using h2
        · intro id' c' h'
          obtain ⟨hid, _⟩ : s.nextId = id' ∧ content = c' := by simpa using h'
          subst hid
          refine ⟨s.messageQueue, [.textDelta s.nextId content], rfl, ?_, hfresh⟩
          intro x hx
          simp only [List.mem_singleton] at hx
          subst hx
          exact ⟨content, rfl⟩
  | toolRequest i n a =>
    cases hcsm : s.currentStreamingMessage with
    | none =>
      rw [onMessage_toolRequest_idle hcsm]
      have h1 : StateInv ({ s with textStartEmitted := false } : StreamState) :=
        ⟨h.pending_none, h.ids_lt, h.queue_inv, by
          intro id c h'
          have h'' : s.currentStreamingMessage = some (id, c) := h'
          rw [hcsm] at h''
          cases h''⟩
      have h2 := stateInv_orGenerateId h1 i
      have h3 : (orGenerateId i ({ s with textStartEmitted := false } :
          StreamState)).2.currentStreamingMessage = none := by
        rw [(orGenerateId_fields i _).2.2.1]
        exact hcsm
      exact stateInv_appendPart_nontext h2 rfl h3
    | some pair =>
      obtain ⟨id, c⟩ := pair
      obtain ⟨E, ds, hQ, hds, hE⟩ := h.open_tail id c hcsm
      rw [onMessage_toolRequest_open hcsm]
      have h1 : StateInv ({ s with
          messageQueue := s.messageQueue ++ [.textEnd id]
          currentStreamingMessage := none
          textStartEmitted := false } : StreamState) := by
        refine ⟨h.pending_none, ?_, ?_, ?_⟩
        · intro id' hu
          rcases usesId_append.mp hu with hu | ⟨p, hp, hpid⟩
          · exact h.ids_lt id' hu
          · simp only [List.mem_singleton] at hp
            subst hp
            simp only [textId, Option.some.injEq] at hpid
            subst hpid
            exact h.ids_lt id (usesId_of_mem
              (hQ ▸ List.mem_append_right E (List.mem_cons_self _ _)) (by simp [textId]))
        · exact queueInv_append_end h.queue_inv hQ hds hE
        · intro id' c' h'
          cases h'
      have h2 := stateInv_orGenerateId h1 i
      have h3 : (orGenerateId i ({ s with
          messageQueue := s.messageQueue ++ [.textEnd id]
          currentStreamingMessage := none
          textStartEmitted := false } : StreamState)).2.currentStreamingMessage = none := by
        rw [(orGenerateId_fields i _).2.2.1]
      exact stateInv_appendPart_nontext h2 rfl h3
  | toolResponse i n r =>
    cases hr : resultTruthy r with
    | false =>
      rw [onMessage_toolResponse_silent hr]
      refine ⟨h.pending_none, h.ids_lt, h.queue_inv, ?_⟩
      intro id c h'
      cases h'
    | true =>
      rw [onMessage_toolResponse_emit hr]
      have h1 : StateInv ({ s with
          currentStreamingMessage := none, textStartEmitted := false } : StreamState) :=
        ⟨h.pending_none, h.ids_lt, h.queue_inv, by intro id c h'; cases h'⟩
      have h2 := stateInv_orGenerateId h1 i
      have h3 : (orGenerateId i ({ s with
          currentStreamingMessage := none,
          textStartEmitted := false } : StreamState)).2.currentStreamingMessage = none := by
        rw [(orGenerateId_fields i _).2.2.1]
      exact stateInv_appendPart_nontext h2 rfl h3
  | complete =>
    cases hcsm : s.currentStreamingMessage with
    | none =>
      rw [onMessage_complete_idle hcsm]
      refine ⟨h.pending_none, ?_, ?_, ?_⟩
      · intro id' hu
        rcases usesId_append.mp hu with hu | ⟨p, hp, hpid⟩
        · exact h.ids_lt id' hu
        · simp only [List.mem_singleton] at hp
          subst hp
          cases hpid
      · exact queueInv_append_nontext h.queue_inv rfl
      · intro id' c' h'
        have h'' : s.currentStreamingMessage = some (id', c') := h'
        rw [hcsm] at h''
        cases h''
    | some pair =>
      obtain ⟨id, c⟩ := pair
      obtain ⟨E, ds, hQ, hds, hE⟩ := h.open_tail id c hcsm
      rw [onMessage_complete_open hcsm]
      refine ⟨h.pending_none, ?_, ?_, ?_⟩
      · intro id' hu
        rcases usesId_append.mp hu with hu | ⟨p, hp, hpid⟩
        · exact h.ids_lt id' hu
        · simp only [List.mem_cons, List.mem_singleton, List.not_mem_nil, or_false] at hp
          rcases hp with rfl | rfl
          · simp only [textId, Option.some.injEq] at hpid
            subst hpid
            exact h.ids_lt id (usesId_of_mem
              (hQ ▸ List.mem_append_right E (List.mem_cons_self _ _)) (by simp [textId]))
          · cases hpid
      · have h1 : QueueInv (s.messageQueue ++ [.textEnd id]) :=
          queueInv_append_end h.queue_inv hQ hds hE
        have h2 : QueueInv ((s.messageQueue ++ [.textEnd id]) ++ [.finishPart "stop"]) :=
          queueInv_append_nontext h1 rfl
        simpa using h2
      · intro id' c' h'
        cases h'
  | errorResp m =>
    cases hcsm : s.currentStreamingMessage with
    | none =>
      rw [onMessage_error_idle hcsm]
      refine ⟨h.pending_none, ?_, ?_, ?_⟩
      · intro id' hu
        rcases usesId_append.mp hu with hu | ⟨p, hp, hpid⟩
        · exact h.ids_lt id' hu
        · simp only [List.mem_singleton] at hp
          subst hp
          cases hpid
      · exact queueInv_append_nontext h.queue_inv rfl
      · intro id' c' h'
        have h'' : s.currentStreamingMessage = some (id', c') := h'
        rw [hcsm] at h''
        cases h''
    | some pair =>
      obtain ⟨id, c⟩ := pair
      obtain ⟨E, ds, hQ, hds, hE⟩ := h.open_tail id c hcsm
      rw [onMessage_error_open hcsm]
      refine ⟨h.pending_none, ?_, ?_, ?_⟩
      · intro id' hu
        rcases usesId_append.mp hu with hu | ⟨p, hp, hpid⟩
        · exact h.ids_lt id' hu
        · simp only [List.mem_cons, List.mem_singleton, List.not_mem_nil, or_false] at hp
          rcases hp with rfl | rfl
          · simp only [textId, Option.some.injEq] at hpid
            subst hpid
            exact h.ids_lt id (usesId_of_mem
              (hQ ▸ List.mem_append_right E (List.mem_cons_self _ _)) (by simp [textId]))
          · cases hpid
      · have h1 : QueueInv (s.messageQueue ++ [.textEnd id]) :=
          queueInv_append_end h.queue_inv hQ hds hE
        have h2 : QueueInv ((s.messageQueue ++ [.textEnd id]) ++
            [.errorPart (errorMessageOf m)]) :=
          queueInv_append_nontext h1 rfl
        simpa using h2
      · intro id' c' h'
        cases h'
  | thinking => exact h
  | cancelled => exact h
  | malformed => exact h

theorem stateInv_step {s : StreamState} (h : StateInv s) (i : StreamInput) :
    StateInv (stepStream s i) := by
  cases i with
  | msg data => exact stateInv_onMessage h data
  | timeoutFired =>
    by_cases ht : s.timeoutCleared = true
    · have hstep : stepStream s .timeoutFired = s := by simp [stepStream, ht]
      rw [hstep]
      exact h
    · have ht' : s.timeoutCleared = false := by simpa using ht
      have hstep : stepStream s .timeoutFired = { s with wsClosed := true } := by
        simp [stepStream, ht']
      rw [hstep]
      refine ⟨h.pending_none, h.ids_lt, h.queue_inv, ?_⟩
      intro id c h'
      have h'' : s.currentStreamingMessage = some (id, c) := h'
      exact h.open_tail id c h''

theorem stateInv_foldl (inputs : List StreamInput) :
    ∀ s : StreamState, StateInv s → StateInv (List.foldl stepStream s inputs) := by
  induction inputs with
  | nil => intro s hs; exact hs
  | cons i rest ih => intro s hs; exact ih _ (stateInv_step hs i)

theorem stateInv_runStream (inputs : List StreamInput) : StateInv (runStream inputs) := by
  have hinit : StateInv initStreamState :=
    ⟨rfl, by intro id hu; obtain ⟨p, hp, _⟩ := hu; simp [initStreamState] at hp,
      queueInv_nil,
      by intro id c h'; cases h'⟩
  exact stateInv_foldl inputs _ hinit

/-! ### Pass-through of the stream filter in text mode -/

theorem processLoop_textMode (j : Nat) :
    ∀ (parts : List StreamPart) (acc : String), processLoop false j acc parts = parts := by
  intro parts
  induction parts with
  | nil => intro acc; rfl
  | cons p rest ih =>
    intro acc
    cases p <;> simp [processLoop, ih]

/-! ### Claim theorems for the streaming path -/

/-- Claim C1: for every sequence of inbound transport events processed by
the streaming path, every emitted `text-delta` and `text-end` is preceded,
in emission order, by a `text-start` carrying the identical id; an id is
never reused after its `text-end` (nor before its `text-start`), and the
deltas of one id form a single contiguous run. -/
theorem c1_segment_lifecycle (inputs : List StreamInput) :
    (∀ A B id d, (runStream inputs).messageQueue = A ++ .textDelta id d :: B →
      .textStart id ∈ A) ∧
    (∀ A B id, (runStream inputs).messageQueue = A ++ .textEnd id :: B →
      .textStart id ∈ A) ∧
    (∀ A B id, (runStream inputs).messageQueue = A ++ .textEnd id :: B →
      ¬ usesId id B) ∧
    (∀ A B id, (runStream inputs).messageQueue = A ++ .textStart id :: B →
      ¬ usesId id A) ∧
    (∀ A B C id d d', (runStream inputs).messageQueue =
        A ++ .textDelta id d :: B ++ .textDelta id d' :: C → ∀ x ∈ B, isDeltaOf id x) :=
  ⟨(stateInv_runStream inputs).queue_inv.opened_delta,
   (stateInv_runStream inputs).queue_inv.opened_end,
   (stateInv_runStream inputs).queue_inv.closed_after,
   (stateInv_runStream inputs).queue_inv.start_first,
   (stateInv_runStream inputs).queue_inv.contiguous⟩

theorem c1_segment_lifecycle_witness :
    StreamPart.textStart 0 ∈ [StreamPart.textStart 0] :=
  (c1_segment_lifecycle [.msg (.response "Hi"), .msg .complete]).1
    [.textStart 0] [.textEnd 0, .finishPart "stop"] 0 "Hi" rfl

/-- Claim C2: on the scenario
`[response "A", tool_request(id=t1,name=fetch), tool_response(id=t1,result="B"),
response "C", complete]` the streaming path uses two distinct segment ids
for `"A"` and `"C"` and both tool events carry the remote id `t1`; and in
general, no segment id has `text-delta`s on both sides of a `tool-call` in
the emitted sequence. -/
theorem c2_tool_boundary :
    (∃ i j : Nat, i ≠ j ∧
      (runStream [.msg (.response "A"),
        .msg (.toolRequest (some "t1") (some "fetch") none),
        .msg (.toolResponse (some "t1") (some "fetch") (some (.str "B"))),
        .msg (.response "C"), .msg .complete]).messageQueue =
        [.textStart i, .textDelta i "A", .textEnd i,
         .toolCall (.remote "t1") "fetch" "\x7b\x7d",
         .toolResult (.remote "t1") "fetch" "B",
         .textStart j, .textDelta j "C", .textEnd j, .finishPart "stop"]) ∧
    (∀ inputs A B C id d tc tn ti,
      (runStream inputs).messageQueue =
        A ++ .textDelta id d :: B ++ .toolCall tc tn ti :: C →
      ¬ ∃ d', .textDelta id d' ∈ C) :=
  ⟨⟨0, 1, by decide, rfl⟩,
   fun inputs A B C id d tc tn ti h =>
     (stateInv_runStream inputs).queue_inv.no_delta_after_tool A B C id d tc tn ti h⟩

theorem c2_tool_boundary_witness :
    ¬ ∃ d', StreamPart.textDelta 0 d' ∈
      [StreamPart.toolResult (.remote "t1") "fetch" "B", .textStart 1, .textDelta 1 "C",
       .textEnd 1, .finishPart "stop"] :=
  c2_tool_boundary.2
    [.msg (.response "A"), .msg (.toolRequest (some "t1") (some "fetch") none),
     .msg (.toolResponse (some "t1") (some "fetch") (some (.str "B"))),
     .msg (.response "C"), .msg .complete]
    [.textStart 0] [.textEnd 0]
    [.toolResult (.remote "t1") "fetch" "B", .textStart 1, .textDelta 1 "C",
     .textEnd 1, .finishPart "stop"]
    0 "A" (.remote "t1") "fetch" "\x7b\x7d" rfl

/-- Claim C3: on `[response "Hello", response " world", complete]` the
streaming path emits exactly `[text-start i, text-delta i "Hello",
text-delta i " world", text-end i, finish(stop)]` for a single id, the
aggregated path resolves with text `"Hello world"` and finish reason
`stop`, and in text mode the caller-visible stream passes the tracker's
parts through unchanged. -/
theorem c3_hello_world :
    (∃ i : Nat,
      (runStream [.msg (.response "Hello"), .msg (.response " world"),
        .msg .complete]).messageQueue =
        [.textStart i, .textDelta i "Hello", .textDelta i " world", .textEnd i,
         .finishPart "stop"]) ∧
    (runGen [.msg (.response "Hello"), .msg (.response " world"),
      .msg .complete]).settled = some (.resolvedText "Hello world" "stop") ∧
    (∀ parts j acc, processLoop false j acc parts = parts) :=
  ⟨⟨0, rfl⟩, rfl, fun parts j acc => processLoop_textMode j parts acc⟩

/-- Claim C4: whenever an `error` transport event arrives while a text
segment is open, the handler appends exactly `text-end` for the open id
followed by the `error` part — so the `Errored` event is never emitted
before the `SegmentClose` of the segment open at that time — and marks the
lifecycle finished. -/
theorem c4_error_closes_segment (s : StreamState) (id : Nat) (c : String)
    (m : Option String) (h : s.currentStreamingMessage = some (id, c)) :
    (onMessage s (.errorResp m)).messageQueue =
      s.messageQueue ++ [.textEnd id, .errorPart (errorMessageOf m)] ∧
    (onMessage s (.errorResp m)).finished = true := by
  rw [onMessage_error_open h]
  exact ⟨rfl, rfl⟩

theorem c4_error_closes_segment_witness :
    (onMessage (runStream [.msg (.response "A")]) (.errorResp (some "boom"))).messageQueue =
      (runStream [.msg (.response "A")]).messageQueue ++
        [.textEnd 0, .errorPart (errorMessageOf (some "boom"))] ∧
    (onMessage (runStream [.msg (.response "A")]) (.errorResp (some "boom"))).finished =
      true :=
  c4_error_closes_segment (runStream [.msg (.response "A")]) 0 "A" (some "boom") rfl

/-- Claim C5 (code bug): when the response deadline fires with no terminal
event received, the streaming path closes the socket but enqueues no
`error` part and never sets `finished` — the emitted sequence does not end
with an `Errored` event and the generator loop cannot terminate — while
the aggregated path does reject with the timeout error and closes the
connection. -/
theorem c5_timeout_behavior :
    (runStream [.timeoutFired]).messageQueue = [] ∧
    (runStream [.timeoutFired]).finished = false ∧
    (runStream [.timeoutFired]).wsClosed = true ∧
    (runGen [.timeoutFired]).settled = some .rejectedTimeout ∧
    (runGen [.timeoutFired]).wsClosed = true :=
  ⟨rfl, rfl, rfl, rfl, rfl⟩

/-- Claim C6 (amended): on every `tool_response` event the tracker resets
to idle — the open segment reference and the text-start flag are cleared
regardless of the current state, so later text opens a fresh segment — but
a `tool-result` part is emitted only when the event carries a truthy
`result`; with an absent or empty result nothing is emitted. -/
theorem c6_tool_outcome_resets (s : StreamState) (i n : Option String)
    (r : Option ResultVal) :
    (onMessage s (.toolResponse i n r)).currentStreamingMessage = none ∧
    (onMessage s (.toolResponse i n r)).textStartEmitted = false ∧
    (resultTruthy r = true → ∃ cid,
      (onMessage s (.toolResponse i n r)).messageQueue =
        s.messageQueue ++ [.toolResult cid (toolNameOrUnknown n)
          (renderResult (r.getD (.str "")))]) ∧
    (resultTruthy r = false →
      (onMessage s (.toolResponse i n r)).messageQueue = s.messageQueue) := by
  cases hr : resultTruthy r with
  | false =>
    rw [onMessage_toolResponse_silent hr]
    refine ⟨rfl, rfl, ?_, fun _ => rfl⟩
    intro habs
    cases habs
  | true =>
    rw [onMessage_toolResponse_emit hr]
    refine ⟨?_, ?_, ?_, ?_⟩
    · cases i with
      | none => simp [orGenerateId, appendPart]
      | some v => by_cases hv : v = "" <;> simp [orGenerateId, appendPart, hv]
    · cases i with
      | none => simp [orGenerateId, appendPart]
      | some v => by_cases hv : v = "" <;> simp [orGenerateId, appendPart, hv]
    · intro _
      cases i with
      | none => exact ⟨.generated s.nextId, by simp [orGenerateId, appendPart]⟩
      | some v =>
        by_cases hv : v = ""
        · exact ⟨.generated s.nextId, by simp [orGenerateId, appendPart, hv]⟩
        · exact ⟨.remote v, by simp [orGenerateId, appendPart, hv]⟩
    · intro habs
      cases habs

theorem c6_tool_outcome_resets_witness :
    ∃ cid,
      (onMessage (runStream [.msg (.response "A")])
          (.toolResponse (some "t1") (some "fetch") (some (.str "B")))).messageQueue =
        (runStream [.msg (.response "A")]).messageQueue ++
          [.toolResult cid (toolNameOrUnknown (some "fetch"))
            (renderResult ((some (ResultVal.str "B")).getD (.str "")))] :=
  (c6_tool_outcome_resets (runStream [.msg (.response "A")]) (some "t1") (some "fetch")
    (some (.str "B"))).2.2.1 rfl

theorem c6_tool_outcome_cex :
    (onMessage (runStream [.msg (.response "A")])
        (.toolResponse (some "t1") (some "fetch") none)).messageQueue =
      [.textStart 0, .textDelta 0 "A"] ∧
    ((onMessage (runStream [.msg (.response "A")])
        (.toolResponse (some "t1") (some "fetch") none)).messageQueue.countP
      isToolResult) = 0 :=
  ⟨rfl, rfl⟩

/-- Claim C9: an undecodable payload or an unrecognized/ignored tag
(`thinking`, `cancelled`) is dropped without any effect on either path:
deleting it from the inbound sequence leaves both the streaming state and
the aggregated state unchanged, so it never terminates the stream or fails
the operation and later messages are processed normally. -/
theorem c9_malformed_dropped (xs ys : List StreamInput) (b : GooseWebResponse)
    (hb : isIgnorableMessage b = true) :
    runStream (xs ++ .msg b :: ys) = runStream (xs ++ ys) ∧
    runGen (xs ++ .msg b :: ys) = runGen (xs ++ ys) := by
  have h1 : ∀ s : StreamState, stepStream s (.msg b) = s := by
    intro s
    cases b <;> first | rfl | simp [isIgnorableMessage] at hb
  have h2 : ∀ g : GenState, stepGen g (.msg b) = g := by
    intro g
    cases b <;> first | rfl | simp [isIgnorableMessage] at hb
  constructor <;>
    simp only [runStream, runGen, List.foldl_append, List.foldl_cons, h1, h2]

theorem c9_malformed_dropped_witness :
    runStream [.msg .thinking] = runStream [] ∧
    runGen [.msg .thinking] = runGen [] := by
  simpa using c9_malformed_dropped [] [] .thinking rfl

/-! ### The greedy behaviour of `extractJson` (claim C7) -/

theorem takeThroughLast_spec {c : Char} :
    ∀ (xs B : List Char), c ∉ B → takeThroughLast c (xs ++ c :: B) = xs ++ [c] := by
  intro xs
  induction xs with
  | nil =>
    intro B hB
    simp [takeThroughLast, hB]
  | cons x xs ih =>
    intro B hB
    have hmem : c ∈ xs ++ c :: B := List.mem_append_right xs (List.mem_cons_self _ _)
    simp [takeThroughLast, hmem, ih B hB]

theorem regexFirstMatch_none : ∀ cs : List Char, candFree cs → regexFirstMatch cs = none := by
  intro cs
  induction cs with
  | nil => intro _; rfl
  | cons c rest ih =>
    intro h
    obtain ⟨h1, h2⟩ := h [] c rest rfl
    rw [regexFirstMatch, if_neg h1, if_neg h2]
    exact ih fun A c' B hsplit => h (c :: A) c' B (by rw [hsplit]; rfl)

theorem regexFirstMatch_spec :
    ∀ (A cs m B : List Char), GreedySpanAt cs A m B → regexFirstMatch cs = some m := by
  intro A
  induction A with
  | nil =>
    intro cs m B h
    obtain ⟨hcs, hspan, _⟩ := h
    simp only [List.nil_append] at hcs
    subst hcs
    rcases hspan with ⟨mid, hm, hB⟩ | ⟨mid, hm, hB⟩
    · subst hm
      have hmem : rbrace ∈ (mid ++ [rbrace]) ++ B := by simp
      rw [show ((lbrace :: mid ++ [rbrace]) ++ B) =
          lbrace :: ((mid ++ [rbrace]) ++ B) from rfl,
        regexFirstMatch, if_pos ⟨rfl, hmem⟩]
      rw [show ((mid ++ [rbrace]) ++ B) = mid ++ rbrace :: B from by simp,
        takeThroughLast_spec mid B hB]
      rfl
    · subst hm
      have hne : ¬(lbrack = lbrace ∧ rbrace ∈ (mid ++ [rbrack]) ++ B) := by
        rintro ⟨habs, _⟩
        exact absurd habs (by decide)
      have hmem : rbrack ∈ (mid ++ [rbrack]) ++ B := by simp
      rw [show ((lbrack :: mid ++ [rbrack]) ++ B) =
          lbrack :: ((mid ++ [rbrack]) ++ B) from rfl,
        regexFirstMatch, if_neg hne, if_pos ⟨rfl, hmem⟩]
      rw [show ((mid ++ [rbrack]) ++ B) = mid ++ rbrack :: B from by simp,
        takeThroughLast_spec mid B hB]
      rfl
  | cons a A ih =>
    intro cs m B h
    obtain ⟨hcs, hspan, hfirst⟩ := h
    obtain ⟨h1, h2⟩ := hfirst [] a A rfl
    subst hcs
    rw [show (((a :: A) ++ m) ++ B) = a :: ((A ++ m) ++ B) from rfl,
      regexFirstMatch]
    rw [if_neg (by rw [show ((A ++ m) ++ B) = A ++ m ++ B from by simp]; exact h1),
      if_neg (by rw [show ((A ++ m) ++ B) = A ++ m ++ B from by simp]; exact h2)]
    refine ih (A ++ m ++ B) m B ⟨by simp, hspan, ?_⟩
    intro A1 c A2 hsplit
    exact hfirst (a :: A1) c A2 (by rw [hsplit]; rfl)

/-- Claim C7 (amended): `extractJson` scans for the span starting at the
first character that is a `\x7b` with a later `\x7d` (or a `[` with a
later `]`), extending greedily to the last such closing character of the
whole text; it attempts to parse that span, returns the span when
`JSON.parse` accepts it and the original text otherwise; on text with no
such candidate span it returns the input unchanged.  (As a total Lean
function it also cannot throw.) -/
theorem c7_extract_greedy (cs : List Char) :
    (candFree cs → extractJson cs = cs) ∧
    (∀ A m B, GreedySpanAt cs A m B →
      extractJson cs = if jsonValid m then m else cs) := by
  constructor
  · intro h
    simp [extractJson, regexFirstMatch_none cs h]
  · intro A m B h
    simp [extractJson, regexFirstMatch_spec A cs m B h]

theorem c7_extract_greedy_witness :
    extractJson [lbrace, rbrace, 'x'] = [lbrace, rbrace] := by
  have h := (c7_extract_greedy [lbrace, rbrace, 'x']).2 [] [lbrace, rbrace] ['x']
    ⟨rfl, Or.inl ⟨[], rfl, by decide⟩, by
      intro A1 c A2 habs
      exact absurd habs.symm (by simp)⟩
  rw [h]
  decide

/-- Claim C7 counterexample: on `"[]x[]"` the first balanced span is
`"[]"`, which parses as JSON, so the claim as stated returns `"[]"`; the
code's greedy regex matches `"[]x[]"`, which fails to parse, so
`extractJson` returns the whole text unchanged. -/
theorem c7_extract_cex :
    firstBalancedSpan ("[]x[]".toList) = some ("[]".toList) ∧
    jsonValid ("[]".toList) = true ∧
    claimedExtractJson ("[]x[]".toList) = "[]".toList ∧
    extractJson ("[]x[]".toList) = "[]x[]".toList ∧
    extractJson ("[]x[]".toList) ≠ claimedExtractJson ("[]x[]".toList) := by
  refine ⟨by decide, by decide, by decide, by decide, by decide⟩

/-! ### The prompt flattener's accumulator (claim C8) -/

theorem foldl_stepMsg :
    ∀ (msgs : List (Option PromptMsg)) (S O : List String),
      List.foldl stepMsg (S.reverse ++ O) msgs =
        (S ++ systemRenders msgs).reverse ++ (O ++ otherRenders msgs) := by
  intro msgs
  induction msgs with
  | nil =>
    intro S O
    simp [systemRenders, otherRenders]
  | cons m rest ih =>
    intro S O
    rcases m with _ | ⟨role, content⟩
    · rw [List.foldl_cons,
        show stepMsg (S.reverse ++ O) none = S.reverse ++ O from rfl,
        show systemRenders (none :: rest) = systemRenders rest from rfl,
        show otherRenders (none :: rest) = otherRenders rest from rfl]
      exact ih S O
    · cases role with
      | system =>
        cases content with
        | str s =>
          rw [List.foldl_cons,
            show stepMsg (S.reverse ++ O) (some ⟨.system, .str s⟩) =
              ("System: " ++ s) :: (S.reverse ++ O) from rfl,
            show ("System: " ++ s) :: (S.reverse ++ O) =
              (S ++ ["System: " ++ s]).reverse ++ O from by simp,
            ih (S ++ ["System: " ++ s]) O,
            show systemRenders (some ⟨.system, .str s⟩ :: rest) =
              ("System: " ++ s) :: systemRenders rest from rfl,
            show otherRenders (some ⟨.system, .str s⟩ :: rest) = otherRenders rest from rfl]
          simp
        | parts ps =>
          rw [List.foldl_cons,
            show stepMsg (S.reverse ++ O) (some ⟨.system, .parts ps⟩) =
              S.reverse ++ O from rfl,
            show systemRenders (some ⟨.system, .parts ps⟩ :: rest) =
              systemRenders rest from rfl,
            show otherRenders (some ⟨.system, .parts ps⟩ :: rest) =
              otherRenders rest from rfl]
          exact ih S O
      | user =>
        cases content with
        | str s =>
          rw [List.foldl_cons,
            show stepMsg (S.reverse ++ O) (some ⟨.user, .str s⟩) =
              (S.reverse ++ O) ++ [s] from rfl,
            show (S.reverse ++ O) ++ [s] = S.reverse ++ (O ++ [s]) from by simp,
            ih S (O ++ [s]),
            show systemRenders (some ⟨.user, .str s⟩ :: rest) = systemRenders rest from rfl,
            show otherRenders (some ⟨.user, .str s⟩ :: rest) =
              s :: otherRenders rest from rfl]
          simp
        | parts ps =>
          by_cases hps : renderParts ps = []
          · rw [List.foldl_cons,
              show stepMsg (S.reverse ++ O) (some ⟨.user, .parts ps⟩) =
                S.reverse ++ O from by simp [stepMsg, hps],
              show systemRenders (some ⟨.user, .parts ps⟩ :: rest) =
                systemRenders rest from rfl,
              show otherRenders (some ⟨.user, .parts ps⟩ :: rest) =
                otherRenders rest from by simp [otherRenders, List.filterMap_cons, hps]]
            exact ih S O
          · rw [List.foldl_cons,
              show stepMsg (S.reverse ++ O) (some ⟨.user, .parts ps⟩) =
                (S.reverse ++ O) ++ [String.intercalate " " (renderParts ps)] from by
                  simp [stepMsg, hps],
              show (S.reverse ++ O) ++ [String.intercalate " " (renderParts ps)] =
                S.reverse ++ (O ++ [String.intercalate " " (renderParts ps)]) from by simp,
              ih S (O ++ [String.intercalate " " (renderParts ps)]),
              show systemRenders (some ⟨.user, .parts ps⟩ :: rest) =
                systemRenders rest from rfl,
              show otherRenders (some ⟨.user, .parts ps⟩ :: rest) =
                String.intercalate " " (renderParts ps) :: otherRenders rest from by
                  simp [otherRenders, List.filterMap_cons, hps]]
            simp
      | assistant =>
        cases content with
        | str s =>
          rw [List.foldl_cons,
            show stepMsg (S.reverse ++ O) (some ⟨.assistant, .str s⟩) =
              (S.reverse ++ O) ++ [s] from rfl,
            show (S.reverse ++ O) ++ [s] = S.reverse ++ (O ++ [s]) from by simp,
            ih S (O ++ [s]),
            show systemRenders (some ⟨.assistant, .str s⟩ :: rest) =
              systemRenders rest from rfl,
            show otherRenders (some ⟨.assistant, .str s⟩ :: rest) =
              s :: otherRenders rest from rfl]
          simp
        | parts ps =>
          by_cases hps : renderParts ps = []
          · rw [List.foldl_cons,
              show stepMsg (S.reverse ++ O) (some ⟨.assistant, .parts ps⟩) =
                S.reverse ++ O from by simp [stepMsg, hps],
              show systemRenders (some ⟨.assistant, .parts ps⟩ :: rest) =
                systemRenders rest from rfl,
              show otherRenders (some ⟨.assistant, .parts ps⟩ :: rest) =
                otherRenders rest from by simp [otherRenders, List.filterMap_cons, hps]]
            exact ih S O
          · rw [List.foldl_cons,
              show stepMsg (S.reverse ++ O) (some ⟨.assistant, .parts ps⟩) =
                (S.reverse ++ O) ++ [String.intercalate " " (renderParts ps)] from by
                  simp [stepMsg, hps],
              show (S.reverse ++ O) ++ [String.intercalate " " (renderParts ps)] =
                S.reverse ++ (O ++ [String.intercalate " " (renderParts ps)]) from by simp,
              ih S (O ++ [String.intercalate " " (renderParts ps)]),
              show systemRenders (some ⟨.assistant, .parts ps⟩ :: rest) =
                systemRenders rest from rfl,
              show otherRenders (some ⟨.assistant, .parts ps⟩ :: rest) =
                String.intercalate " " (renderParts ps) :: otherRenders rest from by
                  simp [otherRenders, List.filterMap_cons, hps]]
            simp
      | otherRole =>
        rw [List.foldl_cons,
          show stepMsg (S.reverse ++ O) (some ⟨.otherRole, content⟩) =
            S.reverse ++ O from by cases content <;> rfl,
          show systemRenders (some ⟨.otherRole, content⟩ :: rest) =
            systemRenders rest from by cases content <;> rfl,
          show otherRenders (some ⟨.otherRole, content⟩ :: rest) =
            otherRenders rest from by cases content <;> rfl]
        exact ih S O

/-- Claim C8 (amended): the flattener renders system-role string-content
messages as `"System: " + text` placed ahead of all other messages but in
reverse order of encounter (each system message is unshifted in front of
everything collected so far); user/assistant messages are rendered in
original order, multi-part content joined by single spaces over the
non-empty text parts (non-text parts dropped, messages with no text parts
skipped); the rendered messages are joined with a blank-line separator;
empty or absent input yields the empty string, and malformed entries are
skipped, never rejected. -/
theorem c8_prompt_flattener :
    (∀ msgs, convertPromptToText (.arr msgs) =
      String.intercalate "\n\n" ((systemRenders msgs).reverse ++ otherRenders msgs)) ∧
    convertPromptToText (.arr []) = "" ∧
    convertPromptToText .absent = "" := by
  refine ⟨?_, rfl, rfl⟩
  intro msgs
  have h := foldl_stepMsg msgs [] []
  simp only [List.reverse_nil, List.nil_append] at h
  show String.intercalate "\n\n" (List.foldl stepMsg [] msgs) =
    String.intercalate "\n\n" ((systemRenders msgs).reverse ++ otherRenders msgs)
  rw [h]

/-- Claim C8 counterexample: two system messages are emitted in reverse
order of encounter — `[system "A", system "B"]` flattens to
`"System: B\n\nSystem: A"`, not `"System: A\n\nSystem: B"` as the claim's
"in the order encountered" requires. -/
theorem c8_prompt_flattener_cex :
    convertPromptToText (.arr [some ⟨.system, .str "A"⟩, some ⟨.system, .str "B"⟩]) =
      "System: B\n\nSystem: A" ∧
    ("System: B\n\nSystem: A" : String) ≠ "System: A\n\nSystem: B" :=
  ⟨rfl, by decide⟩

/-! ### JSON-mode filtering (claim C10) -/

theorem processLoop_nofinish (j : Nat) :
    ∀ (l : List StreamPart) (acc : String), (∀ p ∈ l, isFinishPart p = false) →
      processLoop true j acc l = l.filter (fun p => !isTextPart p) := by
  intro l
  induction l with
  | nil => intro acc _; rfl
  | cons p rest ih =>
    intro acc h
    have hp : isFinishPart p = false := h p (List.mem_cons_self _ _)
    have hrest : ∀ q ∈ rest, isFinishPart q = false := fun q hq =>
      h q (List.mem_cons_of_mem _ hq)
    cases p <;> simp_all [processLoop, isTextPart, isFinishPart, List.filter_cons]

theorem processLoop_append_nofinish (j : Nat) :
    ∀ (A : List StreamPart) (acc : String) (rest : List StreamPart),
      (∀ p ∈ A, isFinishPart p = false) →
      processLoop true j acc (A ++ rest) =
        A.filter (fun p => !isTextPart p) ++ processLoop true j (accDeltas acc A) rest := by
  intro A
  induction A with
  | nil => intro acc rest _; simp [accDeltas]
  | cons p A ih =>
    intro acc rest h
    have hp : isFinishPart p = false := h p (List.mem_cons_self _ _)
    have hA : ∀ q ∈ A, isFinishPart q = false := fun q hq => h q (List.mem_cons_of_mem _ hq)
    have hrec := ih (accStep acc p) rest hA
    have hacc : accDeltas acc (p :: A) = accDeltas (accStep acc p) A := by
      simp [accDeltas]
    cases p <;>
      simp_all [processLoop, isTextPart, isFinishPart, List.filter_cons, accStep, accDeltas]

theorem processLoop_no_text_of_no_trigger (j : Nat) :
    ∀ (parts : List StreamPart) (acc : String),
      (¬ ∃ A r B, parts = A ++ .finishPart r :: B ∧ accDeltas acc A ≠ "" ∧
        extractJsonStr (accDeltas acc A) ≠ accDeltas acc A) →
      (processLoop true j acc parts).filter isTextPart = [] := by
  intro parts
  induction parts with
  | nil => intro acc _; rfl
  | cons p rest ih =>
    intro acc h
    have hrest :
        ¬ ∃ A r B, rest = A ++ .finishPart r :: B ∧
          accDeltas (accStep acc p) A ≠ "" ∧
          extractJsonStr (accDeltas (accStep acc p) A) ≠ accDeltas (accStep acc p) A := by
      rintro ⟨A, r, B, h1, h2, h3⟩
      refine h ⟨p :: A, r, B, by rw [h1]; rfl, ?_, ?_⟩
      · simpa [accDeltas] using h2
      · simpa [accDeltas] using h3
    cases p with
    | finishPart r =>
      have htrig : ¬(¬acc = "" ∧ ¬extractJsonStr acc = acc) := by
        rintro ⟨h2, h3⟩
        exact h ⟨[], r, rest, rfl, by simpa [accDeltas] using h2,
          by simpa [accDeltas] using h3⟩
      have hstep := ih acc (by simpa [accStep] using hrest)
      simp only [processLoop, accStep]
      rw [if_neg ?_]
      · simp [isTextPart, hstep]
      · simpa using htrig
    | textStart id =>
      have hstep := ih acc (by simpa [accStep] using hrest)
      simp [processLoop, isTextPart, accStep, hstep]
    | textDelta id d =>
      have hstep := ih (acc ++ d) (by simpa [accStep] using hrest)
      simp [processLoop, isTextPart, accStep, hstep]
    | textEnd id =>
      have hstep := ih acc (by simpa [accStep] using hrest)
      simp [processLoop, isTextPart, accStep, hstep]
    | toolCall a b c =>
      have hstep := ih acc (by simpa [accStep] using hrest)
      simp [processLoop, isTextPart, accStep, hstep]
    | toolResult a b c =>
      have hstep := ih acc (by simpa [accStep] using hrest)
      simp [processLoop, isTextPart, accStep, hstep]
    | errorPart m =>
      have hstep := ih acc (by simpa [accStep] using hrest)
      simp [processLoop, isTextPart, accStep, hstep]

/-- Claim C10: in the streaming path with a JSON response format, every
text part produced by the tracker is suppressed from the caller-visible
stream; when extraction does not change the accumulated text (in
particular when no JSON fragment can be extracted), the caller-visible
stream contains no text events at all; and when extraction does change it,
the output is exactly the non-text parts with a single fresh
`text-start`/`text-delta`/`text-end` triple carrying the extracted JSON
emitted immediately before the finish part. -/
theorem c10_json_mode (parts : List StreamPart) (j : Nat)
    (hfin : parts.countP isFinishPart ≤ 1) :
    ((¬ ∃ A r B, parts = A ++ .finishPart r :: B ∧ deltasText A ≠ "" ∧
        extractJsonStr (deltasText A) ≠ deltasText A) →
      (createStreamOutput true j parts).filter isTextPart = []) ∧
    (∀ A r B, parts = A ++ .finishPart r :: B → deltasText A ≠ "" →
      extractJsonStr (deltasText A) ≠ deltasText A →
      createStreamOutput true j parts =
        A.filter (fun p => !isTextPart p) ++
          [.textStart j, .textDelta j (extractJsonStr (deltasText A)), .textEnd j,
           .finishPart r] ++ B.filter (fun p => !isTextPart p)) := by
  constructor
  · intro h
    exact processLoop_no_text_of_no_trigger j parts "" h
  · intro A r B hsplit h2 h3
    subst hsplit
    have hcount : A.countP isFinishPart = 0 ∧ B.countP isFinishPart = 0 := by
      rw [List.countP_append, List.countP_cons] at hfin
      simp only [isFinishPart, if_pos] at hfin
      omega
    have hA : ∀ p ∈ A, isFinishPart p = false := by
      intro p hp
      have := List.countP_eq_zero.mp hcount.1 p hp
      simpa using this
    have hB : ∀ p ∈ B, isFinishPart p = false := by
      intro p hp
      have := List.countP_eq_zero.mp hcount.2 p hp
      simpa using this
    have h2' : accDeltas "" A ≠ "" := h2
    have h3' : extractJsonStr (accDeltas "" A) ≠ accDeltas "" A := h3
    rw [show createStreamOutput true j (A ++ .finishPart r :: B) =
        processLoop true j "" (A ++ .finishPart r :: B) from rfl,
      processLoop_append_nofinish j A "" (.finishPart r :: B) hA]
    have hone : processLoop true j (accDeltas "" A) (.finishPart r :: B) =
        [.textStart j, .textDelta j (extractJsonStr (accDeltas "" A)), .textEnd j] ++
          .finishPart r :: processLoop true j (accDeltas "" A) B := by
      simp [processLoop, accStep, isTextPart, h2', h3']
    rw [hone, processLoop_nofinish j B (accDeltas "" A) hB]
    simp [deltasText]

theorem c10_json_mode_witness :
    createStreamOutput true 5
        [.textStart 0, .textDelta 0 "a\x7b\x7db", .textEnd 0, .finishPart "stop"] =
      [.textStart 5, .textDelta 5 "\x7b\x7d", .textEnd 5, .finishPart "stop"] := by
  have h := (c10_json_mode
    [.textStart 0, .textDelta 0 "a\x7b\x7db", .textEnd 0, .finishPart "stop"] 5
    (by decide)).2 [.textStart 0, .textDelta 0 "a\x7b\x7db", .textEnd 0] "stop" []
    rfl (by decide) (by decide)
  rw [h]
  decide
